import Mathlib

/-!
# Verification of the timesheet-report pipeline

A shallow embedding of the data-processing core of `app.py`: column
resolution by header aliases and fixed Excel positions, numeric coercion of
the hours column, grouping and summing by (project, person), sorting,
2-decimal rounding, report statistics, and the data layout handed to the
Excel serializer.  UI rendering, file IO and styling are outside the model;
the pipeline functions below mirror the source functions of the same names.
-/

namespace Timesheet

/-- A spreadsheet cell as pandas sees it.

* `na` — a missing value (`NaN`).
* `str s numeric` — a text value `s`; `numeric` records the outcome of
  `pd.to_numeric` on `s` (`none` when parsing fails).  The numeric parsing of
  arbitrary text happens inside pandas, outside this embedding, so each text
  cell carries its parse outcome as data.
* `num q` — a numeric cell with value `q` (rationals stand for the floats of
  the source; float-specific rounding artifacts are outside the model). -/
inductive Cell where
  | na : Cell
  | str : String → Option ℚ → Cell
  | num : ℚ → Cell
deriving DecidableEq, Repr

/-- `Series.isna` at one cell: only a missing value is NA. -/
def cellNa : Cell → Bool
  | Cell.na => true
  | _ => false

/-- The value a non-missing cell contributes to grouping, sorting and
equality comparisons: its text or its number. -/
abbrev Key := String ⊕ ℚ

/-- The pandas value of a cell (the `na` case is unreachable in the pipeline:
grouping keys are read only after `dropna`). -/
def cellKey : Cell → Key
  | Cell.na => Sum.inl ""
  | Cell.str s _ => Sum.inl s
  | Cell.num q => Sum.inr q

/-- `pd.to_numeric(·, errors="coerce")` at one cell: numbers parse to
themselves, missing values stay missing, text parses per its recorded
outcome. -/
def toNumeric : Cell → Option ℚ
  | Cell.na => none
  | Cell.str _ p => p
  | Cell.num q => some q

/-- Python `str.strip()` on a character list: drop whitespace at both ends. -/
def pyStrip (l : List Char) : List Char :=
  ((l.dropWhile Char.isWhitespace).reverse.dropWhile Char.isWhitespace).reverse

/-- Per-character part of `normalize`: lowercase, then replace a newline or
carriage return by a space (the source replaces the one-character strings
`"\n"` and `"\r"`, which is a character map).  `Char.toLower` lowercases
ASCII; the alias sets of the source are already lowercase, so this matches
the source on the headers the claims quantify over. -/
def normChar (c : Char) : Char :=
  let cl := c.toLower
  if cl = '\n' ∨ cl = '\r' then ' ' else cl

/-- `normalize` of the source: `str(s).strip().lower().replace("\n", " ").replace("\r", " ")`. -/
def normalize (s : String) : String :=
  ⟨(pyStrip s.data).map normChar⟩

/-- Alias set for the activity/project role (a list models the Python set;
only membership is used). -/
def ACTIVITY_ALIASES : List String :=
  ["имя активности", "проект", "activity name", "activity"]

/-- Alias set for the person role. -/
def PERSON_ALIASES : List String :=
  ["полное название", "сотрудник", "специалист", "full name", "employee"]

/-- Alias set for the hours role. -/
def HOURS_ALIASES : List String :=
  ["записанные часы", "часы", "hours", "logged hours", "time"]

/-- The three logical roles a column can play. -/
inductive Role where
  | activity : Role
  | person : Role
  | hours : Role
deriving DecidableEq, Repr

/-- The alias set consulted for each role. -/
def aliasList : Role → List String
  | Role.activity => ACTIVITY_ALIASES
  | Role.person => PERSON_ALIASES
  | Role.hours => HOURS_ALIASES

/-- One step of building a Python dict by comprehension: an existing key is
updated in place (keeping its position), a new key is appended. -/
def dictUpsert (m : List (String × String)) (k v : String) : List (String × String) :=
  if m.any (fun p => decide (p.1 = k)) then
    m.map (fun p => if p.1 = k then (k, v) else p)
  else m ++ [(k, v)]

/-- The dict `{normalize(c): c for c in df.columns}` of the source: insertion
order of the first occurrence of each normalized name, value of the last
column bearing it. -/
def name_map (cols : List String) : List (String × String) :=
  cols.foldl (fun m c => dictUpsert m (normalize c) c) []

/-- `find_column_by_alias` of the source: iterate the normalized-name dict in
insertion order and return the stored column for the first key in the alias
set. -/
def find_column_by_alias (cols : List String) (aliases : List String) : Option String :=
  (name_map cols).findSome? (fun p => if p.1 ∈ aliases then some p.2 else none)

/-- 0-based fallback position per role (`V`=21, `G`=6, `C`=2 in the source). -/
def posOf : Role → ℕ
  | Role.activity => 21
  | Role.person => 6
  | Role.hours => 2

/-- `fallback_by_excel_letters` of the source at one role: the column at the
fixed position when it exists, otherwise unresolved. -/
def fallback_by_excel_letters (cols : List String) (r : Role) : Option String :=
  cols.get? (posOf r)

/-- Python truthiness of an optional column name: `None` and `""` are falsy. -/
def pyTruthy : Option String → Bool
  | none => false
  | some s => decide (s ≠ "")

/-- Python `a or b` on optional column names: a falsy left operand (`None` or
`""`) yields the right operand. -/
def pyOr (a b : Option String) : Option String :=
  match a with
  | some s => if s = "" then b else some s
  | none => b

/-- The required roles, in the iteration order of the source. -/
def requiredRoles : List Role := [Role.activity, Role.person, Role.hours]

/-- `detect_columns` of the source at one role: alias matching first; when
some role is still unresolved (`not all(auto.values())` with Python
truthiness), each role falls back by position via `auto[k] or fb[k]`. -/
def detect_columns (cols : List String) (r : Role) : Option String :=
  if requiredRoles.all (fun k => pyTruthy (find_column_by_alias cols (aliasList k))) then
    find_column_by_alias cols (aliasList r)
  else pyOr (find_column_by_alias cols (aliasList r)) (fallback_by_excel_letters cols r)

/-- A raw table: ordered headers and rows of cells, positionally aligned. -/
structure DataFrame where
  headers : List String
  rows : List (List Cell)
deriving DecidableEq, Repr

/-- Cell of `row` in the column labelled `name` (label-based access; the
pipeline only reads columns whose presence it has checked). -/
def cellAt (df : DataFrame) (row : List Cell) (name : String) : Cell :=
  row.getD (df.headers.indexOf name) Cell.na

/-- `df[[cols["activity"], cols["person"], cols["hours"]]]`: the selected
three-column view, one triple per source row. -/
def selectRows (df : DataFrame) (a p h : String) : List (Cell × Cell × Cell) :=
  df.rows.map (fun row => (cellAt df row a, cellAt df row p, cellAt df row h))

/-- `validate_hours` of the source: coerce every value with
`pd.to_numeric(errors="coerce")`, count the values that became NA without
having been NA, and fill the NAs with 0. -/
def validate_hours (cells : List Cell) : List ℚ × ℕ :=
  let coerced := cells.map toNumeric
  let invalid := coerced.countP (fun o => o.isNone) - cells.countP cellNa
  (coerced.map (fun o => o.getD 0), invalid)

/-- A row of the grouped/aggregated table: one (project, person) value pair
with its summed hours. -/
structure PRow where
  project : Key
  person : Key
  hours : ℚ
deriving DecidableEq, Repr

/-- Executable strict lexicographic comparison on character lists, by code
point — the comparison Python and pandas use on strings. -/
def charListLt : List Char → List Char → Bool
  | [], [] => false
  | [], _ :: _ => true
  | _ :: _, [] => false
  | a :: as, b :: bs => if a < b then true else if b < a then false else charListLt as bs

/-- Executable `≤` on strings (standard string ordering). -/
def strLeB (a b : String) : Bool := !(charListLt b.data a.data)

/-- Ordering on cell values used by `sort_values`: strings by standard string
order, numbers numerically.  pandas raises on a mixed-type comparison; the
mixed cases below are an arbitrary total completion, unreachable for the
tables the claims quantify over. -/
def keyLe : Key → Key → Bool
  | Sum.inl a, Sum.inl b => strLeB a b
  | Sum.inr a, Sum.inr b => decide (a ≤ b)
  | Sum.inr _, Sum.inl _ => true
  | Sum.inl _, Sum.inr _ => false

/-- `sort_values(["Проект", "Специалист"])` row comparison: by project, ties
by person. -/
def rowLe (a b : PRow) : Bool :=
  if a.project = b.project then keyLe a.person b.person else keyLe a.project b.project

/-- The sort relation as a proposition, for `List.insertionSort`. -/
def RowLe (a b : PRow) : Prop := rowLe a b = true

instance : DecidableRel RowLe := fun a b => by unfold RowLe; infer_instance

/-- `groupby(["Проект", "Специалист"], as_index=False)["Часы"].sum()`: one
output row per distinct (project, person) value pair, with the hours of its
rows summed.  (The source sorts the result afterwards, so the group order
here is immaterial.) -/
def groupSum (rows : List (Cell × Cell × ℚ)) : List PRow :=
  let ks := (rows.map (fun r => (cellKey r.1, cellKey r.2.1))).dedup
  ks.map (fun k =>
    { project := k.1, person := k.2,
      hours := ((rows.filter
        (fun r => decide ((cellKey r.1, cellKey r.2.1) = k))).map (fun r => r.2.2)).sum })

/-- Round-half-to-even to an integer (the rounding of `Series.round`). -/
def roundHalfEven (q : ℚ) : ℤ :=
  let n := ⌊q⌋
  if q - n < 1/2 then n
  else if (1 : ℚ)/2 < q - n then n + 1
  else if n % 2 = 0 then n else n + 1

/-- `Series.round(2)` at one value: round half to even at 2 decimal places. -/
def round2 (q : ℚ) : ℚ := (roundHalfEven (q * 100) : ℚ) / 100

/-- The statistics dict built by `process_timesheet` (integral counts are
kept as naturals; the source stores them as floats and casts back with
`int`). -/
structure Stats where
  projects : ℕ
  people : ℕ
  hours_total : ℚ
  invalid_rows : ℕ
  source_rows : ℕ
  used_rows : ℕ
deriving DecidableEq, Repr

/-- The mutable locals of `process_timesheet`, threaded explicitly.  `df` is
the caller's DataFrame; every assignment in the source writes to the `work`
copy or to `grouped`, never to `df` (the selection is taken with `.copy()`). -/
structure PipeState where
  df : DataFrame
  work0 : List (Cell × Cell × Cell)
  cleaned : List (Cell × Cell × ℚ)
  invalid : ℕ
  grouped : List PRow
  final : List PRow
deriving Repr

/-- Pipeline state before the first assignment. -/
def startState (df : DataFrame) : PipeState :=
  { df := df, work0 := [], cleaned := [], invalid := 0, grouped := [], final := [] }

/-- `work = df[[...]].copy(); work.columns = [...]`: select the three role
columns into the working copy. -/
def stepSelect (a p h : String) (s : PipeState) : PipeState :=
  { s with work0 := selectRows s.df a p h }

/-- `work = work.dropna(subset=["Проект", "Специалист"], how="any")`. -/
def stepDropna (s : PipeState) : PipeState :=
  { s with work0 := s.work0.filter (fun r => !(cellNa r.1) && !(cellNa r.2.1)) }

/-- `work["Часы"], invalid_count = validate_hours(work["Часы"])`: the working
rows with the hours column coerced, plus the invalid count. -/
def stepValidate (s : PipeState) : PipeState :=
  let vh := validate_hours (s.work0.map (fun r => r.2.2))
  { s with cleaned := (s.work0.zip vh.1).map (fun rq => (rq.1.1, rq.1.2.1, rq.2)),
           invalid := vh.2 }

/-- `grouped = work.groupby([...])["Часы"].sum()`. -/
def stepGroup (s : PipeState) : PipeState :=
  { s with grouped := groupSum s.cleaned }

/-- `grouped = grouped.sort_values([...], kind="mergesort")`: a stable sort;
`insertionSort` is stable and agrees with mergesort on every input. -/
def stepSort (s : PipeState) : PipeState :=
  { s with grouped := List.insertionSort RowLe s.grouped }

/-- `grouped["Часы"] = grouped["Часы"].round(2)`. -/
def stepRound (s : PipeState) : PipeState :=
  { s with final := s.grouped.map (fun r => { r with hours := round2 r.hours }) }

/-- The body of `process_timesheet` after the column check, as the source's
sequence of assignments. -/
def runPipeline (df : DataFrame) (a p h : String) : PipeState :=
  stepRound (stepSort (stepGroup (stepValidate (stepDropna (stepSelect a p h (startState df))))))

/-- The `ValueError` message of `process_timesheet`. -/
def missingColsMsg : String :=
  "Не найдены требуемые столбцы. Проверьте, что доступны V/\"Имя активности\", G/\"Полное название\", C/\"Записанные часы\" — либо выберите вручную в боковой панели."

/-- Role lookup in the `cols` dict (`r not in cols` is a `none` result). -/
def lookupRole (cols : List (Role × String)) (r : Role) : Option String :=
  (cols.find? (fun p => decide (p.1 = r))).map (fun p => p.2)

/-- The per-role check of `process_timesheet`: the role is present in `cols`
and names a column of `df`. -/
def colOk (df : DataFrame) (cols : List (Role × String)) (r : Role) : Bool :=
  match lookupRole cols r with
  | some c => decide (c ∈ df.headers)
  | none => false

/-- `process_timesheet` of the source: check the role map, run the cleaning
and aggregation pipeline, and return the final table with its statistics;
raise `ValueError` (an `Except.error`) when a role is missing or names an
absent column. -/
def process_timesheet (df : DataFrame) (cols : List (Role × String)) :
    Except String (List PRow × Stats) :=
  if requiredRoles.all (colOk df cols) then
    let a := (lookupRole cols Role.activity).getD ""
    let p := (lookupRole cols Role.person).getD ""
    let h := (lookupRole cols Role.hours).getD ""
    let st := runPipeline df a p h
    Except.ok (st.final,
      { projects := ((st.final.map (fun r => r.project)).dedup).length,
        people := ((st.final.map (fun r => r.person)).dedup).length,
        hours_total := (st.final.map (fun r => r.hours)).sum,
        invalid_rows := st.invalid,
        source_rows := df.rows.length,
        used_rows := st.work0.length })
  else Except.error missingColsMsg

/-- The data content of the workbook built by `create_excel_report`: the rows
written to the report sheet and the label/value rows of the statistics sheet
(styling, number formats, frozen panes and column widths carry no data). -/
structure ExcelReport where
  reportSheet : List PRow
  statsSheet : List (String × ℚ)
deriving DecidableEq, Repr

/-- The statistics sheet rows, in the fixed label order of the source. -/
def mkStatsSheet (stats : Stats) : List (String × ℚ) :=
  [("Количество проектов", (stats.projects : ℚ)),
   ("Количество специалистов", (stats.people : ℚ)),
   ("Всего часов", stats.hours_total),
   ("Некорректных часов (приведены к 0)", (stats.invalid_rows : ℚ)),
   ("Строк в исходных данных", (stats.source_rows : ℚ)),
   ("Строк после очистки", (stats.used_rows : ℚ))]

/-- `create_excel_report` of the source, at the level of sheet data. -/
def create_excel_report (df : List PRow) (stats : Stats) : ExcelReport :=
  { reportSheet := df, statsSheet := mkStatsSheet stats }

/-- `"Файл пуст..."` error of the processing handler. -/
def emptyFileMsg : String := "Файл пуст или не содержит данных."

/-- `"Не удалось определить..."` error of the processing handler. -/
def missingAutoMsg : String :=
  "Не удалось определить требуемые столбцы. Укажите их в боковой панели или проверьте заголовки."

/-- The `"Все проекты"` sentinel of the project filter. -/
def sentinelAll : Key := Sum.inl "Все проекты"

/-- The processing handler of the app (the body of `if process_clicked`),
from column resolution to the Excel export: manual choices take Python-`or`
precedence over `detect_columns`, the empty-file and missing-role checks run,
`process_timesheet` produces the aggregated table and statistics, the project
filter restricts the displayed/exported rows, and `create_excel_report`
receives the filtered rows together with the statistics object. -/
def appProcess (df : DataFrame) (manual : Role → Option String) (selected : Key) :
    Except String (List PRow × Stats × ExcelReport) :=
  let auto : Role → Option String := fun r => detect_columns df.headers r
  let colsF : Role → Option String := fun r => pyOr (manual r) (auto r)
  if df.rows.length = 0 ∨ df.headers.length = 0 then Except.error emptyFileMsg
  else if requiredRoles.any (fun r => (colsF r).isNone) then Except.error missingAutoMsg
  else
    match process_timesheet df (requiredRoles.map (fun r => (r, (colsF r).getD ""))) with
    | Except.error e => Except.error e
    | Except.ok (result_df, stats) =>
      let filtered := if selected ≠ sentinelAll
        then result_df.filter (fun r => decide (r.project = selected))
        else result_df
      Except.ok (result_df, stats, create_excel_report filtered stats)

/-- The resolved role map of the handler: `manual_cols[r] or auto[r]`. -/
def resolveCols (headers : List String) (manual : Role → Option String) (r : Role) :
    Option String :=
  pyOr (manual r) (detect_columns headers r)

/-! ## Helper lemmas -/

lemma countP_add_of_imp {α : Type _} (p q : α → Bool) (h : ∀ a, q a = true → p a = true) :
    ∀ l : List α, l.countP p = l.countP q + l.countP (fun a => !(q a) && p a) := by
  intro l
  induction l with
  | nil => simp
  | cons a t ih =>
    simp only [List.countP_cons, ih]
    cases hq : q a
    · cases hp : p a
      · simp [hp, hq]
      · simp [hp, hq]
        omega
    · have hp := h a hq
      simp [hp, hq]
      omega

/-! ## Claims -/

/-- C4: `validate_hours` maps every value to its numeric coercion with NA
filled by 0 — so an originally-missing value and an originally-non-missing
value that fails to parse both come out as 0, and no row is dropped (the
output has one value per input value) — and the invalid count it returns is
exactly the number of originally-non-missing values whose coercion failed
(originally-missing values are not counted). -/
theorem c4_validate_hours (cells : List Cell) :
    (validate_hours cells).1 = cells.map (fun c => (toNumeric c).getD 0) ∧
    (validate_hours cells).2 =
      (cells.filter (fun c => !(cellNa c) && (toNumeric c).isNone)).length := by
  constructor
  · simp [validate_hours, List.map_map, Function.comp]
  · have h := countP_add_of_imp (fun c => (toNumeric c).isNone) cellNa
      (by intro a ha; cases a <;> simp_all [cellNa, toNumeric]) cells
    simp only [validate_hours]
    rw [← List.countP_eq_length_filter, List.countP_map]
    have h2 : List.countP ((fun o : Option ℚ => o.isNone) ∘ toNumeric) cells =
        List.countP (fun c => (toNumeric c).isNone) cells := rfl
    rw [h2, h]
    omega

/-- C9: the raw input table is never mutated: after every assignment of the
pipeline body (column selection into the working copy, `dropna`, the hours
coercion, grouping, sorting, rounding) the caller's DataFrame equals its
initial value. -/
theorem c9_input_not_mutated (df : DataFrame) (a p h : String) :
    (stepSelect a p h (startState df)).df = df ∧
    (stepDropna (stepSelect a p h (startState df))).df = df ∧
    (stepValidate (stepDropna (stepSelect a p h (startState df)))).df = df ∧
    (stepGroup (stepValidate (stepDropna (stepSelect a p h (startState df))))).df = df ∧
    (stepSort (stepGroup (stepValidate (stepDropna (stepSelect a p h (startState df)))))).df = df ∧
    (runPipeline df a p h).df = df :=
  ⟨rfl, rfl, rfl, rfl, rfl, rfl⟩

/-- C10: when a required role is absent from the role map, or names a column
that is not among the table's headers, `process_timesheet` raises the
`ValueError` (modelled as `Except.error`) before producing any table or
statistics. -/
theorem c10_missing_column_error (df : DataFrame) (cols : List (Role × String)) (r : Role)
    (hr : r ∈ requiredRoles)
    (hbad : lookupRole cols r = none ∨ ∃ c, lookupRole cols r = some c ∧ c ∉ df.headers) :
    process_timesheet df cols = Except.error missingColsMsg := by
  have hc : colOk df cols r = false := by
    rcases hbad with h | ⟨c, hc, hmem⟩
    · simp [colOk, h]
    · simp [colOk, hc, hmem]
  unfold process_timesheet
  rw [if_neg]
  intro hall
  rw [List.all_eq_true] at hall
  exact absurd (hall r hr) (by simp [hc])

/-- Witness for C10 at a concrete input: the role map names a column absent
from the one-column table, so processing errors out. -/
theorem c10_witness :
    process_timesheet { headers := ["x"], rows := [] } [(Role.activity, "nope")] =
      Except.error missingColsMsg :=
  c10_missing_column_error { headers := ["x"], rows := [] } [(Role.activity, "nope")]
    Role.person (by decide) (Or.inl (by decide))

/-! ### Lemmas about the normalized-name dict -/

lemma dictUpsert_of_not_mem (m : List (String × String)) (k v : String)
    (h : ∀ q ∈ m, q.1 ≠ k) : dictUpsert m k v = m ++ [(k, v)] := by
  have h' : ¬ (m.any (fun p => decide (p.1 = k)) = true) := by
    rw [List.any_eq_true]
    rintro ⟨q, hq, hqk⟩
    exact h q hq (by simpa using hqk)
  unfold dictUpsert
  rw [if_neg h']

lemma name_map_go (cols : List String) :
    ∀ m : List (String × String), (∀ c ∈ cols, ∀ q ∈ m, q.1 ≠ normalize c) →
      (cols.map normalize).Nodup →
      List.foldl (fun acc c => dictUpsert acc (normalize c) c) m cols =
        m ++ cols.map (fun c => (normalize c, c)) := by
  induction cols with
  | nil =>
    intro m _ _
    simp
  | cons c cs ih =>
    intro m hm hnd
    simp only [List.foldl_cons]
    rw [dictUpsert_of_not_mem m (normalize c) c (fun q hq => hm c (by simp) q hq)]
    have hnd2 : (normalize c :: cs.map normalize).Nodup := by simpa using hnd
    have hnotmem : normalize c ∉ cs.map normalize := (List.nodup_cons.1 hnd2).1
    rw [ih (m ++ [(normalize c, c)]) ?hma (List.nodup_cons.1 hnd2).2]
    · simp
    case hma =>
      intro c' hc' q hq
      rcases List.mem_append.1 hq with hq | hq
      · exact hm c' (by simp [hc']) q hq
      · simp only [List.mem_singleton] at hq
        rw [hq]
        intro hce
        apply hnotmem
        rw [show normalize c = normalize c' from hce]
        exact List.mem_map_of_mem normalize hc'

lemma name_map_eq_of_nodup (cols : List String) (hnd : (cols.map normalize).Nodup) :
    name_map cols = cols.map (fun c => (normalize c, c)) := by
  simpa [name_map] using name_map_go cols [] (by simp) hnd

lemma findSome?_name_entries (aliases : List String) (cols : List String) :
    (cols.map (fun c => (normalize c, c))).findSome?
        (fun p => if p.1 ∈ aliases then some p.2 else none) =
      cols.find? (fun c => decide (normalize c ∈ aliases)) := by
  induction cols with
  | nil => rfl
  | cons c cs ih =>
    by_cases h : normalize c ∈ aliases
    · rw [List.find?_cons_of_pos _ (by simpa using h)]
      simp [List.findSome?_cons, h]
    · rw [List.find?_cons_of_neg _ (by simpa using h)]
      simp [List.findSome?_cons, h, ih]

/-- C3 counterexample: the columns `"Hours"` and `"hours "` both normalize to
`"hours"`, a member of the hours alias set; the first such column in source
order is `"Hours"`, but alias resolution returns `"hours "` (the dict
comprehension keeps the value of the last column sharing a normalized
name). -/
theorem c3_counterexample :
    find_column_by_alias ["Hours", "hours "] HOURS_ALIASES = some "hours " ∧
    normalize "Hours" ∈ HOURS_ALIASES ∧ ("hours " : String) ≠ "Hours" := by
  refine ⟨by decide, by decide, by decide⟩

/-- C3 (amended): when the columns' normalized names are pairwise distinct,
alias resolution returns the first column in source order whose normalized
name is in the alias set; when several columns share a normalized name, the
dict keeps the position of the first but the value of the last such
column. -/
theorem c3_first_alias_match (cols aliases : List String)
    (hnd : (cols.map normalize).Nodup) :
    find_column_by_alias cols aliases =
      cols.find? (fun c => decide (normalize c ∈ aliases)) := by
  unfold find_column_by_alias
  rw [name_map_eq_of_nodup cols hnd, findSome?_name_entries]

/-- Witness for C3 (amended): with distinct normalized headers the first
alias match in source order is returned. -/
theorem c3_witness :
    find_column_by_alias ["Activity", "Hours"] HOURS_ALIASES =
      (["Activity", "Hours"] : List String).find?
        (fun c => decide (normalize c ∈ HOURS_ALIASES)) ∧
    (["Activity", "Hours"] : List String).find?
        (fun c => decide (normalize c ∈ HOURS_ALIASES)) = some "Hours" :=
  ⟨c3_first_alias_match ["Activity", "Hours"] HOURS_ALIASES (by decide), by decide⟩

/-! ### Lemmas about alias results -/

lemma name_map_entry_norm (cols : List String) :
    ∀ q ∈ name_map cols, q.1 = normalize q.2 := by
  suffices h : ∀ (m : List (String × String)), (∀ q ∈ m, q.1 = normalize q.2) →
      ∀ q ∈ List.foldl (fun acc c => dictUpsert acc (normalize c) c) m cols,
        q.1 = normalize q.2 by
    exact h [] (by simp)
  induction cols with
  | nil =>
    intro m hm
    simpa using hm
  | cons c cs ih =>
    intro m hm
    simp only [List.foldl_cons]
    apply ih
    intro q hq
    unfold dictUpsert at hq
    by_cases hc : m.any (fun p => decide (p.1 = normalize c)) = true
    · rw [if_pos hc] at hq
      obtain ⟨p, hp, hpe⟩ := List.mem_map.1 hq
      by_cases hpk : p.1 = normalize c
      · rw [if_pos hpk] at hpe
        rw [← hpe]
      · rw [if_neg hpk] at hpe
        rw [← hpe]
        exact hm p hp
    · rw [if_neg hc] at hq
      rcases List.mem_append.1 hq with hq | hq
      · exact hm q hq
      · simp only [List.mem_singleton] at hq
        simp [hq]

lemma find_column_norm_mem (cols aliases : List String) (c : String)
    (h : find_column_by_alias cols aliases = some c) : normalize c ∈ aliases := by
  unfold find_column_by_alias at h
  obtain ⟨p, hp, hpc⟩ := List.exists_of_findSome?_eq_some h
  by_cases hm : p.1 ∈ aliases
  · rw [if_pos hm] at hpc
    obtain rfl : p.2 = c := by simpa using hpc
    exact (name_map_entry_norm cols p hp) ▸ hm
  · rw [if_neg hm] at hpc
    cases hpc

lemma empty_not_alias (r : Role) : ("" : String) ∉ aliasList r := by
  cases r <;> decide

lemma find_column_ne_empty (cols : List String) (r : Role) (c : String)
    (h : find_column_by_alias cols (aliasList r) = some c) : c ≠ "" := by
  intro hc
  subst hc
  exact empty_not_alias r (find_column_norm_mem cols (aliasList r) "" h)

/-- C5: for any role whose alias match failed, `detect_columns` assigns the
column at the role's fixed 0-based position (activity 21, person 6, hours 2)
and leaves the role unresolved when the table has no column at that index;
a role resolved by alias keeps its alias match and is never overridden by
the fallback. -/
theorem c5_fallback_positions (cols : List String) (r : Role) :
    (find_column_by_alias cols (aliasList r) = none →
      detect_columns cols r = cols.get? (posOf r) ∧
      (cols.length ≤ posOf r → detect_columns cols r = none)) ∧
    (∀ c, find_column_by_alias cols (aliasList r) = some c →
      detect_columns cols r = some c) := by
  constructor
  · intro h
    have hfb : detect_columns cols r = cols.get? (posOf r) := by
      unfold detect_columns
      rw [if_neg]
      · simp [pyOr, h, fallback_by_excel_letters]
      · intro hall
        rw [List.all_eq_true] at hall
        have hr := hall r (by cases r <;> simp [requiredRoles])
        rw [h] at hr
        simp [pyTruthy] at hr
    exact ⟨hfb, fun hlen => by rw [hfb]; exact List.get?_eq_none.2 hlen⟩
  · intro c hc
    have hne := find_column_ne_empty cols r c hc
    unfold detect_columns
    by_cases hall : requiredRoles.all
        (fun k => pyTruthy (find_column_by_alias cols (aliasList k))) = true
    · rw [if_pos hall]
      exact hc
    · rw [if_neg hall, hc]
      simp [pyOr, hne]

/-- Witness for C5 at a concrete input: no header matches any alias, so the
hours role falls back to the column at index 2. -/
theorem c5_witness :
    detect_columns ["h1", "h2", "h3"] Role.hours =
      (["h1", "h2", "h3"] : List String).get? (posOf Role.hours) ∧
    (["h1", "h2", "h3"] : List String).get? (posOf Role.hours) = some "h3" :=
  ⟨((c5_fallback_positions ["h1", "h2", "h3"] Role.hours).1 (by decide)).1, by decide⟩

/-- C6 counterexample: the caller manually picks the column literally named
`""` (present in the table) for the hours role, but the Python-`or`
resolution treats the empty string as falsy and uses the automatic match
`"hours"` instead of the manual choice. -/
theorem c6_counterexample :
    (fun x : Role => match x with | Role.hours => some "" | _ => none) Role.hours
      = some "" ∧
    resolveCols ["", "hours"]
      (fun x : Role => match x with | Role.hours => some "" | _ => none) Role.hours
      ≠ some "" := by
  exact ⟨rfl, by decide⟩

/-- C6 (amended): a manual override with a non-empty column name short-circuits
automatic resolution for that role; a role with no manual override (or with
the falsy empty-string override) uses automatic resolution. -/
theorem c6_manual_override (headers : List String) (manual : Role → Option String)
    (r : Role) :
    (∀ c, manual r = some c → c ≠ "" → resolveCols headers manual r = some c) ∧
    (manual r = none → resolveCols headers manual r = detect_columns headers r) := by
  constructor
  · intro c hc hne
    simp [resolveCols, pyOr, hc, hne]
  · intro h
    simp [resolveCols, pyOr, h]

/-- Witness for C6 (amended): a concrete non-empty manual choice wins. -/
theorem c6_witness :
    resolveCols ["col"] (fun _ => some "pick") Role.activity = some "pick" :=
  (c6_manual_override ["col"] (fun _ => some "pick") Role.activity).1 "pick" rfl (by decide)

/-! ### Sum lemmas for the aggregation -/

lemma sum_map_filter_split {α : Type _} (p : α → Bool) (f : α → ℚ) (l : List α) :
    ((l.filter p).map f).sum + ((l.filter (fun a => !(p a))).map f).sum = (l.map f).sum := by
  induction l with
  | nil => simp
  | cons a t ih =>
    cases hp : p a
    · simp only [List.filter_cons, hp, Bool.not_false, if_neg, List.map_cons, List.sum_cons,
        cond_false, cond_true, List.map, Bool.false_eq_true, ite_false, ite_true]
      rw [← ih]
      ring
    · simp only [List.filter_cons, hp, Bool.not_true, List.map_cons, List.sum_cons,
        Bool.false_eq_true, ite_false, ite_true]
      rw [← ih]
      ring

lemma filter_filter_of_imp {α : Type _} (p q : α → Bool) (l : List α)
    (h : ∀ a, q a = true → p a = true) : (l.filter p).filter q = l.filter q := by
  induction l with
  | nil => rfl
  | cons a t ih =>
    cases hq : q a
    · cases hp : p a <;> simp [List.filter_cons, hp, hq, ih]
    · have hp := h a hq
      simp [List.filter_cons, hp, hq, ih]

lemma sum_over_keys :
    ∀ (ks : List (Key × Key)) (rows : List (Cell × Cell × ℚ)), ks.Nodup →
      (∀ r ∈ rows, (cellKey r.1, cellKey r.2.1) ∈ ks) →
      (ks.map (fun k => ((rows.filter
          (fun r => decide ((cellKey r.1, cellKey r.2.1) = k))).map (fun r => r.2.2)).sum)).sum
        = (rows.map (fun r => r.2.2)).sum := by
  intro ks
  induction ks with
  | nil =>
    intro rows _ hcov
    have hnil : rows = [] := by
      rw [List.eq_nil_iff_forall_not_mem]
      intro r hr
      exact absurd (hcov r hr) (List.not_mem_nil _)
    simp [hnil]
  | cons k ks ih =>
    intro rows hnd hcov
    have hk : k ∉ ks := (List.nodup_cons.1 hnd).1
    have htail : ∀ k' ∈ ks,
        rows.filter (fun r => decide ((cellKey r.1, cellKey r.2.1) = k')) =
          (rows.filter (fun r => !(decide ((cellKey r.1, cellKey r.2.1) = k)))).filter
            (fun r => decide ((cellKey r.1, cellKey r.2.1) = k')) := by
      intro k' hk'
      rw [filter_filter_of_imp]
      intro r hr
      simp only [decide_eq_true_eq] at hr
      have hkk : ¬ ((cellKey r.1, cellKey r.2.1) = k) := by
        rw [hr]
        rintro rfl
        exact hk hk'
      simp [hkk]
    have hmapeq :
        ks.map (fun k' => ((rows.filter
            (fun r => decide ((cellKey r.1, cellKey r.2.1) = k'))).map (fun r => r.2.2)).sum) =
          ks.map (fun k' => (((rows.filter
            (fun r => !(decide ((cellKey r.1, cellKey r.2.1) = k)))).filter
              (fun r => decide ((cellKey r.1, cellKey r.2.1) = k'))).map (fun r => r.2.2)).sum) :=
      List.map_congr_left (fun k' hk' => by rw [htail k' hk'])
    have hcov' : ∀ r ∈ rows.filter (fun r => !(decide ((cellKey r.1, cellKey r.2.1) = k))),
        (cellKey r.1, cellKey r.2.1) ∈ ks := by
      intro r hr
      have hr' := List.mem_filter.1 hr
      rcases List.mem_cons.1 (hcov r hr'.1) with hceq | h2
      · exfalso
        have := hr'.2
        rw [hceq] at this
        simp at this
      · exact h2
    simp only [List.map_cons, List.sum_cons]
    rw [hmapeq, ih (rows.filter (fun r => !(decide ((cellKey r.1, cellKey r.2.1) = k))))
      (List.nodup_cons.1 hnd).2 hcov']
    exact sum_map_filter_split (fun r => decide ((cellKey r.1, cellKey r.2.1) = k))
      (fun r => r.2.2) rows

lemma groupSum_sum (rows : List (Cell × Cell × ℚ)) :
    ((groupSum rows).map (fun r => r.hours)).sum = (rows.map (fun r => r.2.2)).sum := by
  unfold groupSum
  rw [List.map_map]
  exact sum_over_keys ((rows.map (fun r => (cellKey r.1, cellKey r.2.1))).dedup) rows
    (List.nodup_dedup _)
    (fun r hr => List.mem_dedup.2 (List.mem_map_of_mem _ hr))

/-- C2 counterexample: a single cleaned row with hours 1/1000 sums to 1/1000,
but the aggregated table rounds its single row to 0.00, so the sum of Hours
over the aggregated rows (0) differs from the sum of coerced hours over the
cleaned rows (1/1000). -/
theorem c2_counterexample :
    process_timesheet
        { headers := ["activity", "employee", "hours"],
          rows := [[Cell.str "A" none, Cell.str "B" none, Cell.num (1/1000)]] }
        [(Role.activity, "activity"), (Role.person, "employee"), (Role.hours, "hours")] =
      Except.ok ([{ project := Sum.inl "A", person := Sum.inl "B", hours := 0 }],
        { projects := 1, people := 1, hours_total := 0, invalid_rows := 0,
          source_rows := 1, used_rows := 1 }) ∧
    ((runPipeline
        { headers := ["activity", "employee", "hours"],
          rows := [[Cell.str "A" none, Cell.str "B" none, Cell.num (1/1000)]] }
        "activity" "employee" "hours").final.map (fun r => r.hours)).sum = 0 ∧
    ((runPipeline
        { headers := ["activity", "employee", "hours"],
          rows := [[Cell.str "A" none, Cell.str "B" none, Cell.num (1/1000)]] }
        "activity" "employee" "hours").cleaned.map (fun r => r.2.2)).sum = 1/1000 ∧
    (0 : ℚ) ≠ 1/1000 := by
  refine ⟨by with_unfolding_all rfl, by with_unfolding_all rfl, by with_unfolding_all rfl, by norm_num⟩

/-- C2 (amended): conservation of the total holds before the final 2-decimal
rounding — the sum of the per-group sums over the grouped (sorted, unrounded)
table equals the sum of the coerced hours over all cleaned rows.  After the
per-row rounding of the aggregated table the two totals can differ, by at
most half a cent per aggregated row. -/
theorem c2_conservation_preround (df : DataFrame) (a p h : String) :
    ((runPipeline df a p h).grouped.map (fun r => r.hours)).sum =
      ((runPipeline df a p h).cleaned.map (fun r => r.2.2)).sum := by
  simp only [runPipeline, stepRound, stepSort, stepGroup, stepValidate, stepDropna,
    stepSelect, startState]
  have hperm := (List.perm_insertionSort RowLe
    (groupSum ((((selectRows df a p h).filter
      (fun r => !(cellNa r.1) && !(cellNa r.2.1))).zip
        (validate_hours (((selectRows df a p h).filter
          (fun r => !(cellNa r.1) && !(cellNa r.2.1))).map (fun r => r.2.2))).1).map
            (fun rq => (rq.1.1, rq.1.2.1, rq.2))))).map (fun r : PRow => r.hours)
  rw [hperm.sum_eq]
  exact groupSum_sum _

/-- C8: when every raw row has a missing project or a missing person, all
rows are dropped and processing returns an empty aggregated table together
with zero project count, zero person count, zero total hours, zero invalid
count and zero used rows — not an error. -/
theorem c8_empty_after_drop (df : DataFrame) (cols : List (Role × String)) (a p h : String)
    (ha : lookupRole cols Role.activity = some a) (hamem : a ∈ df.headers)
    (hp : lookupRole cols Role.person = some p) (hpmem : p ∈ df.headers)
    (hh : lookupRole cols Role.hours = some h) (hhmem : h ∈ df.headers)
    (hrows : ∀ row ∈ df.rows,
      cellNa (cellAt df row a) = true ∨ cellNa (cellAt df row p) = true) :
    process_timesheet df cols =
      Except.ok ([], { projects := 0, people := 0, hours_total := 0, invalid_rows := 0,
                       source_rows := df.rows.length, used_rows := 0 }) := by
  have hcond : requiredRoles.all (colOk df cols) = true := by
    rw [List.all_eq_true]
    intro r hr
    simp only [requiredRoles, List.mem_cons, List.not_mem_nil, or_false] at hr
    rcases hr with rfl | rfl | rfl
    · simp [colOk, ha, hamem]
    · simp [colOk, hp, hpmem]
    · simp [colOk, hh, hhmem]
  have hwork : (selectRows df a p h).filter (fun r => !(cellNa r.1) && !(cellNa r.2.1)) = [] := by
    rw [List.filter_eq_nil_iff]
    intro x hx
    obtain ⟨row, hrow, hre⟩ := List.mem_map.1 hx
    rcases hrows row hrow with hna | hna <;>
      simp [← hre, hna]
  unfold process_timesheet
  rw [if_pos hcond]
  simp only [ha, hp, hh, Option.getD_some, runPipeline, stepRound, stepSort, stepGroup,
    stepValidate, stepDropna, stepSelect, startState, hwork]
  simp [validate_hours, groupSum, List.insertionSort]

/-- Witness for C8 at a concrete input: the single raw row has a missing
project cell, so nothing survives the drop and all statistics are zero. -/
theorem c8_witness :
    process_timesheet
        { headers := ["a", "b", "c"], rows := [[Cell.na, Cell.str "P" none, Cell.num 5]] }
        [(Role.activity, "a"), (Role.person, "b"), (Role.hours, "c")] =
      Except.ok ([], { projects := 0, people := 0, hours_total := 0, invalid_rows := 0,
                       source_rows := 1, used_rows := 0 }) :=
  c8_empty_after_drop
    { headers := ["a", "b", "c"], rows := [[Cell.na, Cell.str "P" none, Cell.num 5]] }
    [(Role.activity, "a"), (Role.person, "b"), (Role.hours, "c")] "a" "b" "c"
    (by decide) (by decide) (by decide) (by decide) (by decide) (by decide) (by decide)

/-! ### The sort order -/

lemma charListLt_iff : ∀ a b : List Char, charListLt a b = true ↔ List.Lex (· < ·) a b := by
  intro a
  induction a with
  | nil =>
    intro b
    cases b with
    | nil =>
      simp only [charListLt, Bool.false_eq_true, false_iff]
      exact fun hlt => nomatch hlt
    | cons y ys =>
      simp only [charListLt, true_iff]
      exact List.Lex.nil
  | cons x xs ih =>
    intro b
    cases b with
    | nil =>
      simp only [charListLt, Bool.false_eq_true, false_iff]
      exact fun hlt => nomatch hlt
    | cons y ys =>
      unfold charListLt
      by_cases hxy : x < y
      · simp only [hxy, if_pos, true_iff]
        exact List.Lex.rel hxy
      · by_cases hyx : y < x
        · simp only [hxy, hyx, ite_true, ite_false, Bool.false_eq_true, false_iff]
          intro hlt
          cases hlt with
          | rel h1 => exact hxy h1
          | cons h2 => exact absurd hyx (lt_irrefl _)
        · have hxe : x = y := le_antisymm (not_lt.1 hyx) (not_lt.1 hxy)
          subst hxe
          simp only [lt_irrefl, ite_false, ih ys]
          exact (List.Lex.cons_iff).symm

lemma strLeB_iff (a b : String) : strLeB a b = true ↔ a ≤ b := by
  constructor
  · intro h hba
    have hc : charListLt b.data a.data = true :=
      (charListLt_iff b.data a.data).2 (String.lt_iff_toList_lt.1 hba)
    rw [strLeB, hc] at h
    exact absurd h (by simp)
  · intro h
    have hc : ¬ (charListLt b.data a.data = true) :=
      fun hc => h (String.lt_iff_toList_lt.2 ((charListLt_iff _ _).1 hc))
    rw [strLeB]
    cases hcc : charListLt b.data a.data
    · rfl
    · exact absurd hcc hc

lemma keyLe_total (a b : Key) : keyLe a b = true ∨ keyLe b a = true := by
  cases a with
  | inl sa =>
    cases b with
    | inl sb =>
      simp only [keyLe, strLeB_iff]
      exact le_total sa sb
    | inr qb => simp [keyLe]
  | inr qa =>
    cases b with
    | inl sb => simp [keyLe]
    | inr qb =>
      simp only [keyLe, decide_eq_true_eq]
      exact le_total qa qb

lemma keyLe_trans (a b c : Key) (h1 : keyLe a b = true) (h2 : keyLe b c = true) :
    keyLe a c = true := by
  cases a <;> cases b <;> cases c <;>
    simp_all only [keyLe, strLeB_iff, decide_eq_true_eq, Bool.false_eq_true] <;>
    exact le_trans h1 h2

lemma keyLe_antisymm (a b : Key) (h1 : keyLe a b = true) (h2 : keyLe b a = true) :
    a = b := by
  cases a <;> cases b <;>
    simp_all only [keyLe, strLeB_iff, decide_eq_true_eq, Bool.false_eq_true,
      Sum.inl.injEq, Sum.inr.injEq] <;>
    exact le_antisymm h1 h2

lemma rowLe_total (a b : PRow) : rowLe a b = true ∨ rowLe b a = true := by
  unfold rowLe
  by_cases hab : a.project = b.project
  · rw [if_pos hab, if_pos hab.symm]
    exact keyLe_total a.person b.person
  · rw [if_neg hab, if_neg (fun e => hab e.symm)]
    exact keyLe_total a.project b.project

lemma rowLe_trans (a b c : PRow) (h1 : rowLe a b = true) (h2 : rowLe b c = true) :
    rowLe a c = true := by
  unfold rowLe at h1 h2 ⊢
  by_cases hab : a.project = b.project <;> by_cases hbc : b.project = c.project
  · rw [if_pos hab] at h1
    rw [if_pos hbc] at h2
    rw [if_pos (hab.trans hbc)]
    exact keyLe_trans _ _ _ h1 h2
  · rw [if_pos hab] at h1
    rw [if_neg hbc] at h2
    have hac : ¬ a.project = c.project := by rw [hab]; exact hbc
    rw [if_neg hac, hab]
    exact h2
  · rw [if_neg hab] at h1
    rw [if_pos hbc] at h2
    have hac : ¬ a.project = c.project := by rw [← hbc]; exact hab
    rw [if_neg hac, ← hbc]
    exact h1
  · rw [if_neg hab] at h1
    rw [if_neg hbc] at h2
    by_cases hac : a.project = c.project
    · exact absurd (keyLe_antisymm _ _ h1 (by rw [hac]; exact h2)) hab
    · rw [if_neg hac]
      exact keyLe_trans _ _ _ h1 h2

instance : IsTotal PRow RowLe := ⟨fun a b => rowLe_total a b⟩

instance : IsTrans PRow RowLe := ⟨fun a b c => rowLe_trans a b c⟩

/-! ### Keys of the aggregated table -/

lemma groupSum_keys (rows : List (Cell × Cell × ℚ)) :
    (groupSum rows).map (fun r => (r.project, r.person)) =
      (rows.map (fun r => (cellKey r.1, cellKey r.2.1))).dedup := by
  unfold groupSum
  rw [List.map_map]
  have h1 : ((fun r : PRow => (r.project, r.person)) ∘ fun k : Key × Key =>
      ({ project := k.1, person := k.2,
         hours := ((rows.filter
           (fun r => decide ((cellKey r.1, cellKey r.2.1) = k))).map
             (fun r => r.2.2)).sum } : PRow)) = fun k : Key × Key => k :=
    funext fun k => rfl
  rw [h1, show (fun k : Key × Key => k) = id from rfl, List.map_id]

lemma runPipeline_final_nodup_sorted (df : DataFrame) (a p h : String) :
    ((runPipeline df a p h).final.map (fun r => (r.project, r.person))).Nodup ∧
    (runPipeline df a p h).final.Pairwise RowLe := by
  simp only [runPipeline, stepRound, stepSort, stepGroup, stepValidate, stepDropna,
    stepSelect, startState]
  constructor
  · rw [List.map_map]
    have h1 : ((fun r : PRow => (r.project, r.person)) ∘
        fun r : PRow => { r with hours := round2 r.hours }) =
          fun r : PRow => (r.project, r.person) := rfl
    rw [h1]
    have hperm := (List.perm_insertionSort RowLe
      (groupSum ((((selectRows df a p h).filter
        (fun r => !(cellNa r.1) && !(cellNa r.2.1))).zip
          (validate_hours (((selectRows df a p h).filter
            (fun r => !(cellNa r.1) && !(cellNa r.2.1))).map (fun r => r.2.2))).1).map
              (fun rq => (rq.1.1, rq.1.2.1, rq.2))))).map (fun r : PRow => (r.project, r.person))
    apply hperm.nodup_iff.2
    rw [groupSum_keys]
    exact List.nodup_dedup _
  · have hs : List.Pairwise RowLe (List.insertionSort RowLe
        (groupSum ((((selectRows df a p h).filter
          (fun r => !(cellNa r.1) && !(cellNa r.2.1))).zip
            (validate_hours (((selectRows df a p h).filter
              (fun r => !(cellNa r.1) && !(cellNa r.2.1))).map (fun r => r.2.2))).1).map
                (fun rq => (rq.1.1, rq.1.2.1, rq.2))))) :=
      List.sorted_insertionSort RowLe _
    exact List.pairwise_map.2 (hs.imp (fun hxy => hxy))

lemma pairwise_strict_of_sorted_nodup (l : List PRow)
    (hnd : (l.map (fun r => (r.project, r.person))).Nodup)
    (hs : l.Pairwise RowLe) :
    l.Pairwise (fun x y => ∀ px qx py qy,
      x.project = Sum.inl px → x.person = Sum.inl qx →
      y.project = Sum.inl py → y.person = Sum.inl qy →
      px < py ∨ (px = py ∧ qx < qy)) := by
  have hnd' : l.Pairwise (fun x y => (x.project, x.person) ≠ (y.project, y.person)) :=
    List.pairwise_map.1 hnd
  refine (hs.and hnd').imp ?_
  rintro x y ⟨hle, hne⟩ px qx py qy hpx hqx hpy hqy
  have hle' : rowLe x y = true := hle
  unfold rowLe at hle'
  by_cases hproj : x.project = y.project
  · rw [if_pos hproj] at hle'
    right
    have hpq : px = py := by
      rw [hpx, hpy] at hproj
      exact Sum.inl.inj hproj
    refine ⟨hpq, ?_⟩
    have hqle : qx ≤ qy := by
      rw [hqx, hqy] at hle'
      exact (strLeB_iff qx qy).1 hle'
    refine lt_of_le_of_ne hqle ?_
    intro he
    apply hne
    rw [Prod.mk.injEq]
    exact ⟨hproj, by rw [hqx, hqy, he]⟩
  · rw [if_neg hproj] at hle'
    left
    have hple : px ≤ py := by
      rw [hpx, hpy] at hle'
      exact (strLeB_iff px py).1 hle'
    refine lt_of_le_of_ne hple ?_
    intro he
    exact hproj (by rw [hpx, hpy, he])

/-- C7: in every aggregated table produced by `process_timesheet`, the
(project, person) pairs are pairwise distinct, and every earlier row is
strictly before every later row in the lexicographic (project, person)
order under standard string ordering.  (The source sorts with the stable
`kind="mergesort"`; since the group keys are pairwise distinct the sorted
order is unique, so any stable sort yields exactly this table.) -/
theorem c7_unique_sorted (df : DataFrame) (cols : List (Role × String))
    (agg : List PRow) (stats : Stats)
    (hok : process_timesheet df cols = Except.ok (agg, stats)) :
    (agg.map (fun r => (r.project, r.person))).Nodup ∧
    agg.Pairwise (fun x y => ∀ px qx py qy,
      x.project = Sum.inl px → x.person = Sum.inl qx →
      y.project = Sum.inl py → y.person = Sum.inl qy →
      px < py ∨ (px = py ∧ qx < qy)) := by
  unfold process_timesheet at hok
  by_cases hc : requiredRoles.all (colOk df cols) = true
  · rw [if_pos hc] at hok
    have h2 := Except.ok.inj hok
    have hagg : (runPipeline df ((lookupRole cols Role.activity).getD "")
        ((lookupRole cols Role.person).getD "")
        ((lookupRole cols Role.hours).getD "")).final = agg := congrArg Prod.fst h2
    rw [← hagg]
    have hh := runPipeline_final_nodup_sorted df ((lookupRole cols Role.activity).getD "")
      ((lookupRole cols Role.person).getD "") ((lookupRole cols Role.hours).getD "")
    exact ⟨hh.1, pairwise_strict_of_sorted_nodup _ hh.1 hh.2⟩
  · rw [if_neg hc] at hok
    cases hok

/-- Witness for C7 at a concrete input whose raw order is not sorted: the
aggregated table comes out with distinct keys in strictly increasing
(project, person) order. -/
theorem c7_witness :
    (([{ project := Sum.inl "A", person := Sum.inl "Q", hours := 2 },
       { project := Sum.inl "B", person := Sum.inl "P", hours := 1 }] : List PRow).map
        (fun r => (r.project, r.person))).Nodup ∧
    ([{ project := Sum.inl "A", person := Sum.inl "Q", hours := 2 },
      { project := Sum.inl "B", person := Sum.inl "P", hours := 1 }] : List PRow).Pairwise
        (fun x y => ∀ px qx py qy,
          x.project = Sum.inl px → x.person = Sum.inl qx →
          y.project = Sum.inl py → y.person = Sum.inl qy →
          px < py ∨ (px = py ∧ qx < qy)) :=
  c7_unique_sorted
    { headers := ["activity", "employee", "hours"],
      rows := [[Cell.str "B" none, Cell.str "P" none, Cell.num 1],
               [Cell.str "A" none, Cell.str "Q" none, Cell.num 2]] }
    [(Role.activity, "activity"), (Role.person, "employee"), (Role.hours, "hours")]
    [{ project := Sum.inl "A", person := Sum.inl "Q", hours := 2 },
     { project := Sum.inl "B", person := Sum.inl "P", hours := 1 }]
    { projects := 2, people := 2, hours_total := 3, invalid_rows := 0,
      source_rows := 2, used_rows := 2 }
    (by with_unfolding_all rfl)

/-! ### The project filter and the statistics handed to the serializer -/

/-- C1 counterexample: with two aggregated projects and the filter set to
project `"A"`, the serializer receives only the matching row, but the
statistics object passed alongside (and shown in the metric widgets) is the
one computed from the full aggregated table: its project count is 2, while
the filtered rows contain a single distinct project. -/
theorem c1_counterexample :
    appProcess
        { headers := ["activity", "employee", "hours"],
          rows := [[Cell.str "A" none, Cell.str "P1" none, Cell.num 1],
                   [Cell.str "B" none, Cell.str "P2" none, Cell.num 2]] }
        (fun _ => none) (Sum.inl "A") =
      Except.ok
        ([{ project := Sum.inl "A", person := Sum.inl "P1", hours := 1 },
          { project := Sum.inl "B", person := Sum.inl "P2", hours := 2 }],
         { projects := 2, people := 2, hours_total := 3, invalid_rows := 0,
           source_rows := 2, used_rows := 2 },
         { reportSheet := [{ project := Sum.inl "A", person := Sum.inl "P1", hours := 1 }],
           statsSheet := mkStatsSheet
             { projects := 2, people := 2, hours_total := 3, invalid_rows := 0,
               source_rows := 2, used_rows := 2 } }) ∧
    (mkStatsSheet
        { projects := 2, people := 2, hours_total := 3, invalid_rows := 0,
          source_rows := 2, used_rows := 2 }).head? =
      some ("Количество проектов", (2 : ℚ)) ∧
    (([{ project := Sum.inl "A", person := Sum.inl "P1", hours := 1 }] : List PRow).map
        (fun r => r.project)).dedup.length = 1 ∧
    (2 : ℚ) ≠ 1 := by
  refine ⟨by with_unfolding_all rfl, by with_unfolding_all rfl,
    by with_unfolding_all rfl, by norm_num⟩

/-- C1 (amended): when the project filter is set to a value other than the
`"Все проекты"` sentinel, the rows handed to the Excel serializer are exactly
the aggregated rows whose project equals the filter value, but the statistics
handed to it (and surfaced to the caller) are those of the full unfiltered
aggregated table — the filter does not affect the statistics. -/
theorem c1_filter_rows_not_stats (df : DataFrame) (manual : Role → Option String)
    (sel : Key) (res : List PRow) (stats : Stats) (excel : ExcelReport)
    (hok : appProcess df manual sel = Except.ok (res, stats, excel))
    (hsel : sel ≠ sentinelAll) :
    excel.reportSheet = res.filter (fun r => decide (r.project = sel)) ∧
    excel.statsSheet = mkStatsSheet stats := by
  simp only [appProcess] at hok
  by_cases h1 : (df.rows.length = 0 ∨ df.headers.length = 0)
  · rw [if_pos h1] at hok
    cases hok
  rw [if_neg h1] at hok
  by_cases h2 : (requiredRoles.any
      fun r => (pyOr (manual r) (detect_columns df.headers r)).isNone) = true
  · rw [if_pos h2] at hok
    cases hok
  rw [if_neg h2] at hok
  rcases hp : process_timesheet df
      (List.map (fun r => (r, (pyOr (manual r) (detect_columns df.headers r)).getD ""))
        requiredRoles) with e | pr
  · simp only [hp] at hok
    cases hok
  · obtain ⟨result_df, stats'⟩ := pr
    simp only [hp] at hok
    rw [if_pos hsel] at hok
    injection hok with h3
    rw [Prod.mk.injEq, Prod.mk.injEq] at h3
    obtain ⟨hres, hstats, hexcel⟩ := h3
    subst hres
    subst hstats
    rw [← hexcel]
    exact ⟨rfl, rfl⟩

/-- Witness for C1 (amended) at the two-project input filtered to `"A"`: the
serializer receives the one matching row together with the full-table
statistics. -/
theorem c1_witness :
    ({ reportSheet := [{ project := Sum.inl "A", person := Sum.inl "P1", hours := 1 }],
       statsSheet := mkStatsSheet
         { projects := 2, people := 2, hours_total := 3, invalid_rows := 0,
           source_rows := 2, used_rows := 2 } } : ExcelReport).reportSheet =
      ([{ project := Sum.inl "A", person := Sum.inl "P1", hours := 1 },
        { project := Sum.inl "B", person := Sum.inl "P2", hours := 2 }] : List PRow).filter
          (fun r => decide (r.project = Sum.inl "A")) ∧
    ({ reportSheet := [{ project := Sum.inl "A", person := Sum.inl "P1", hours := 1 }],
       statsSheet := mkStatsSheet
         { projects := 2, people := 2, hours_total := 3, invalid_rows := 0,
           source_rows := 2, used_rows := 2 } } : ExcelReport).statsSheet =
      mkStatsSheet
        { projects := 2, people := 2, hours_total := 3, invalid_rows := 0,
          source_rows := 2, used_rows := 2 } :=
  c1_filter_rows_not_stats
    { headers := ["activity", "employee", "hours"],
      rows := [[Cell.str "A" none, Cell.str "P1" none, Cell.num 1],
               [Cell.str "B" none, Cell.str "P2" none, Cell.num 2]] }
    (fun _ => none) (Sum.inl "A")
    [{ project := Sum.inl "A", person := Sum.inl "P1", hours := 1 },
     { project := Sum.inl "B", person := Sum.inl "P2", hours := 2 }]
    { projects := 2, people := 2, hours_total := 3, invalid_rows := 0,
      source_rows := 2, used_rows := 2 }
    { reportSheet := [{ project := Sum.inl "A", person := Sum.inl "P1", hours := 1 }],
      statsSheet := mkStatsSheet
        { projects := 2, people := 2, hours_total := 3, invalid_rows := 0,
          source_rows := 2, used_rows := 2 } }
    (by with_unfolding_all rfl) (by decide)

end Timesheet
